import Mathlib

/-! Verification of the trust core of `aur-trust`.

The definitions below are a shallow embedding of `src/lattice.rs`,
`src/trust/types.rs` and `src/trust.rs`:

* `Trust` embeds the Rust enum `Trust` with discriminants
  `Untrusted = 0`, `Trusted = 1`, `Indeterminate = 2`; its derived `Ord`
  (discriminant order) is embedded as a `LinearOrder` lifted along the
  discriminant map, and `Trust.meet` is `self.min(other)`.
* `TrustVerdict` embeds the Rust struct of the same name; `Vec<String>`
  becomes `List String`.  Rust's `Vec::sort` (a total sort by the `Ord`
  instance of `String`) is embedded as `List.insertionSort (· ≤ ·)`,
  which produces the ascending reordering of the list; since `≤` on
  `String` is a linear order the sorted permutation is unique, so any
  correct sort agrees with it.
* `HashSet<String>` values (the trust database and a package's
  maintainer set) are embedded as `List String` holding the set's
  elements in iteration order; membership is list membership.
  `is_subset` becomes `List.all (contains …)` and `difference` becomes
  `List.filter (!contains …)` in iteration order.
* The evaluators `check_commit_signature`, `check_maintainers`, the
  fold `combined_verdict` and `check_trust` are translated clause by
  clause; `format!` strings become explicit `String` appends.
-/

/-- Trust in an AUR package (`src/trust/types.rs`).  Discriminants 0, 1, 2. -/
inductive Trust where
  /-- The package is not trusted. -/
  | Untrusted
  /-- The package is trusted. -/
  | Trusted
  /-- Trust for the package is not fully determined yet. -/
  | Indeterminate
deriving DecidableEq, Repr

namespace Trust

/-- The discriminant of the Rust enum variant. -/
def toNat : Trust → Nat
  | .Untrusted => 0
  | .Trusted => 1
  | .Indeterminate => 2

theorem toNat_injective : Function.Injective Trust.toNat := by
  intro a b h
  cases a <;> cases b <;> first | rfl | exact absurd h (by simp [Trust.toNat])

/-- The derived `Ord`/`PartialOrd` of the Rust enum: order by discriminant. -/
instance : LinearOrder Trust := LinearOrder.lift' Trust.toNat toNat_injective

/-- Embeds `Trust::bottom` from the `HasBottom` impl. -/
def bottom : Trust := Trust.Untrusted

/-- Embeds `Trust::default` from the `Default` impl. -/
def default : Trust := Trust.Indeterminate

/-- Embeds `Trust::meet` from the `MeetSemiLattice` impl: `self.min(other)`. -/
def meet (self other : Trust) : Trust := min self other

end Trust

/-- Embeds `Vec::sort` on the reason strings: the ascending reordering under the
lexicographic order of `String`. -/
def sortReasons (reasons : List String) : List String :=
  reasons.insertionSort (· ≤ ·)

/-- The verdict whether a package is trusted (`src/trust/types.rs`). -/
structure TrustVerdict where
  trust : Trust
  reasons : List String
deriving DecidableEq, Repr

namespace TrustVerdict

/-- Embeds `TrustVerdict::default`: trust is still indeterminate, no special reasons. -/
def default : TrustVerdict := { trust := Trust.Indeterminate, reasons := [] }

/-- Embeds `TrustVerdict::set_trust`. -/
def set_trust (self : TrustVerdict) (trust : Trust) : TrustVerdict :=
  { self with trust := trust }

/-- Embeds `TrustVerdict::add_reason`: push one reason onto the vector. -/
def add_reason (self : TrustVerdict) (reason : String) : TrustVerdict :=
  { self with reasons := self.reasons ++ [reason] }

/-- Embeds `TrustVerdict::trusted`. -/
def trusted : TrustVerdict := TrustVerdict.default.set_trust Trust.Trusted

/-- Embeds `TrustVerdict::untrusted`. -/
def untrusted : TrustVerdict := TrustVerdict.default.set_trust Trust.Untrusted

/-- Embeds the `TrustVerdict::trust` accessor. -/
def trust! (self : TrustVerdict) : Trust := self.trust

/-- Embeds `TrustVerdict::meet` from the `MeetSemiLattice` impl: meet the trust
values, retain the reasons of the operands whose trust equals the lower
bound, and sort the result to establish commutativity. -/
def meet (self other : TrustVerdict) : TrustVerdict :=
  let trust := self.trust.meet other.trust
  let reasons :=
    (if self.trust = trust then self.reasons else []) ++
      (if other.trust = trust then other.reasons else [])
  { trust := trust, reasons := sortReasons reasons }

end TrustVerdict

/-- The validity of a Git signature, according to git (`src/trust.rs`). -/
inductive SignatureValidity where
  /-- The signature was good and valid. -/
  | Good
  /-- The signature was bad, i.e. an invalid format. -/
  | Bad
  /-- The signature was good, but its validity is unknown. -/
  | UnknownValidity
  /-- The signature is expired. -/
  | ExpiredSignature
  /-- The signature is good, but the signing key is expired. -/
  | ExpiredKey
  /-- The signing key was revoked. -/
  | RevokedKey
deriving DecidableEq, Repr

/-- The state of a signature on a commit (`src/trust.rs`). -/
structure CommitSignature where
  validity : SignatureValidity
  signer : String
  key : String
deriving DecidableEq, Repr

/-- The database of trusted entities (`src/trust.rs`); the `HashSet` of
trusted maintainers is embedded as the list of its elements. -/
structure TrustDatabase where
  trusted_maintainers : List String
deriving DecidableEq, Repr

/-- A git commit (`src/trust.rs`). -/
structure GitCommit where
  abbrev_sha1 : String
  signature : Option CommitSignature
deriving DecidableEq, Repr

/-- A package with associated evidence for checking trust (`src/trust.rs`);
the maintainer `HashSet` is embedded as the list of its elements in
iteration order. -/
structure PackageWithEvidence where
  name : String
  maintainers : List String
  head_commit : GitCommit
deriving DecidableEq, Repr

/-- Embeds `check_commit_signature` from `src/trust.rs`, clause by clause; the
`format!` calls become explicit appends. -/
def check_commit_signature (commit : GitCommit) : TrustVerdict :=
  match commit.signature with
  | none =>
      TrustVerdict.default.add_reason
        ("HEAD commit " ++ commit.abbrev_sha1 ++ " has no signature")
  | some signature =>
      match signature.validity with
      | SignatureValidity.Good =>
          TrustVerdict.trusted.add_reason
            ("HEAD commit " ++ commit.abbrev_sha1 ++ " signed by " ++
              signature.signer ++ " with key " ++ signature.key)
      | SignatureValidity.Bad =>
          TrustVerdict.untrusted.add_reason
            ("HEAD commit " ++ commit.abbrev_sha1 ++ " had bad signature")
      | SignatureValidity.UnknownValidity =>
          TrustVerdict.untrusted.add_reason
            ("Validity of signature of " ++ signature.signer ++ " with key " ++
              signature.key ++ " on HEAD commit " ++ commit.abbrev_sha1 ++
              " is not known")
      | SignatureValidity.ExpiredSignature =>
          TrustVerdict.untrusted.add_reason
            ("Signature of " ++ signature.signer ++ " with key " ++
              signature.key ++ " on HEAD commit " ++ commit.abbrev_sha1 ++
              " is expired")
      | SignatureValidity.ExpiredKey =>
          TrustVerdict.untrusted.add_reason
            ("Signature of " ++ signature.signer ++ " on HEAD commit " ++
              commit.abbrev_sha1 ++ " was made with expired key " ++
              signature.key)
      | SignatureValidity.RevokedKey =>
          TrustVerdict.untrusted.add_reason
            ("Signature of " ++ signature.signer ++ " on HEAD commit " ++
              commit.abbrev_sha1 ++ " was made with revoked key " ++
              signature.key)

/-- Embeds `check_maintainers` from `src/trust.rs`: `is_empty`, `is_subset` and
`difference` on the maintainer `HashSet` become emptiness, `all`-membership
and `filter` on its element list. -/
def check_maintainers (trustdb : TrustDatabase) (maintainers : List String) :
    TrustVerdict :=
  if maintainers.isEmpty then
    TrustVerdict.default.add_reason "Maintainers unknown"
  else if maintainers.all (fun m => trustdb.trusted_maintainers.contains m) then
    (TrustVerdict.default.set_trust Trust.Trusted).add_reason
      "All maintainers trusted"
  else
    (maintainers.filter
        (fun m => !trustdb.trusted_maintainers.contains m)).foldl
      (fun verdict maintainer =>
        verdict.add_reason ("Maintainer " ++ maintainer ++ " is not trusted"))
      TrustVerdict.default

/-- Embeds `combined_verdict` from `src/trust.rs`: fold `meet` over the verdicts
starting from the default verdict. -/
def combined_verdict (verdicts : List TrustVerdict) : TrustVerdict :=
  verdicts.foldl (fun l r => l.meet r) TrustVerdict.default

/-- Embeds `check_trust` from `src/trust.rs`. -/
def check_trust (trustdb : TrustDatabase) (package : PackageWithEvidence) :
    TrustVerdict :=
  let commit_verdict := check_commit_signature package.head_commit
  let maintainer_verdict := check_maintainers trustdb package.maintainers
  combined_verdict [commit_verdict, maintainer_verdict]

/-- C1: `Trust.meet` returns the minimum of its operands under the fixed
total order `Untrusted < Trusted < Indeterminate`; `bottom` is `Untrusted`
and the default value is `Indeterminate`. -/
theorem trust_meet_is_min_under_fixed_order :
    (∀ a b : Trust,
      Trust.meet a b ≤ a ∧ Trust.meet a b ≤ b ∧
        (Trust.meet a b = a ∨ Trust.meet a b = b)) ∧
      Trust.Untrusted < Trust.Trusted ∧ Trust.Trusted < Trust.Indeterminate ∧
        Trust.bottom = Trust.Untrusted ∧ Trust.default = Trust.Indeterminate := by
  refine ⟨fun a b => ?_, ?_, ?_, rfl, rfl⟩
  · exact ⟨min_le_left a b, min_le_right a b, min_cases a b |>.elim
      (fun h => Or.inl h.1) (fun h => Or.inr h.1)⟩
  · decide
  · decide

/-- C4: the order laws of `Trust.meet`: commutativity, associativity,
absorption by `Untrusted`, and idempotence. -/
theorem trust_meet_order_laws :
    ∀ a b c : Trust,
      Trust.meet a b = Trust.meet b a ∧
        Trust.meet (Trust.meet a b) c = Trust.meet a (Trust.meet b c) ∧
          Trust.meet a Trust.Untrusted = Trust.Untrusted ∧
            Trust.meet a a = a := by
  intro a b c
  refine ⟨min_comm a b, min_assoc a b c, ?_, min_self a⟩
  cases a <;> decide

/-! Helper lemmas about the verdict meet -/

theorem trust_meet_comm (a b : Trust) : a.meet b = b.meet a := min_comm a b

theorem trust_meet_assoc (a b c : Trust) :
    (a.meet b).meet c = a.meet (b.meet c) := min_assoc a b c

theorem trust_meet_self (a : Trust) : a.meet a = a := min_self a

theorem trust_meet_le_left (a b : Trust) : a.meet b ≤ a := min_le_left a b

theorem trust_meet_le_right (a b : Trust) : a.meet b ≤ b := min_le_right a b

/-- The reasons of a verdict that survive a meet at combined trust `t`. -/
def retained (t : Trust) (v : TrustVerdict) : List String :=
  if v.trust = t then v.reasons else []

theorem sortReasons_perm (l : List String) : List.Perm (sortReasons l) l :=
  List.perm_insertionSort _ l

theorem sortReasons_sorted (l : List String) :
    (sortReasons l).Sorted (· ≤ ·) :=
  List.sorted_insertionSort _ l

theorem sortReasons_congr {l₁ l₂ : List String} (h : List.Perm l₁ l₂) :
    sortReasons l₁ = sortReasons l₂ :=
  List.eq_of_perm_of_sorted
    ((sortReasons_perm l₁).trans (h.trans (sortReasons_perm l₂).symm))
    (sortReasons_sorted l₁) (sortReasons_sorted l₂)

theorem verdict_ext {a b : TrustVerdict} (h1 : a.trust = b.trust)
    (h2 : a.reasons = b.reasons) : a = b := by
  cases a; cases b; cases h1; cases h2; rfl

theorem meet_trust (l r : TrustVerdict) :
    (l.meet r).trust = l.trust.meet r.trust := rfl

theorem meet_reasons (l r : TrustVerdict) :
    (l.meet r).reasons =
      sortReasons
        (retained (l.trust.meet r.trust) l ++ retained (l.trust.meet r.trust) r) :=
  rfl

theorem meet_comm_aux (l r : TrustVerdict) : l.meet r = r.meet l := by
  have ht : l.trust.meet r.trust = r.trust.meet l.trust := trust_meet_comm _ _
  refine verdict_ext ?_ ?_
  · rw [meet_trust, meet_trust, ht]
  · rw [meet_reasons, meet_reasons, ht]
    exact sortReasons_congr List.perm_append_comm

theorem retained_meet {t : Trust} (l r : TrustVerdict)
    (h : t ≤ l.trust.meet r.trust) :
    List.Perm (retained t (l.meet r)) (retained t l ++ retained t r) := by
  by_cases hm : l.trust.meet r.trust = t
  · have hv : retained t (l.meet r) = (l.meet r).reasons := by
      unfold retained
      rw [if_pos (by rw [meet_trust, hm])]
    rw [hv, meet_reasons, hm]
    exact sortReasons_perm _
  · have hlt : t < l.trust.meet r.trust := lt_of_le_of_ne h (fun e => hm e.symm)
    have hl : l.trust ≠ t := by
      intro e
      exact absurd (lt_of_lt_of_le hlt (trust_meet_le_left _ _))
        (by rw [e]; exact lt_irrefl t)
    have hr : r.trust ≠ t := by
      intro e
      exact absurd (lt_of_lt_of_le hlt (trust_meet_le_right _ _))
        (by rw [e]; exact lt_irrefl t)
    have hmeet : (l.meet r).trust ≠ t := by rw [meet_trust]; exact fun e => hm e
    unfold retained
    rw [if_neg hmeet, if_neg hl, if_neg hr]
    exact List.Perm.refl _

theorem meet_assoc_aux (a b c : TrustVerdict) :
    (a.meet b).meet c = a.meet (b.meet c) := by
  refine verdict_ext ?_ ?_
  · simp only [meet_trust]
    exact trust_meet_assoc _ _ _
  · rw [meet_reasons, meet_reasons]
    simp only [meet_trust]
    rw [trust_meet_assoc]
    have h1 : List.Perm
        (retained (a.trust.meet (b.trust.meet c.trust)) (a.meet b))
        (retained (a.trust.meet (b.trust.meet c.trust)) a ++
          retained (a.trust.meet (b.trust.meet c.trust)) b) := by
      apply retained_meet
      exact le_min (trust_meet_le_left _ _)
        (le_trans (trust_meet_le_right _ _) (trust_meet_le_left _ _))
    have h2 : List.Perm
        (retained (a.trust.meet (b.trust.meet c.trust)) (b.meet c))
        (retained (a.trust.meet (b.trust.meet c.trust)) b ++
          retained (a.trust.meet (b.trust.meet c.trust)) c) :=
      retained_meet _ _ (trust_meet_le_right _ _)
    apply sortReasons_congr
    refine (h1.append_right _).trans ?_
    rw [List.append_assoc]
    exact h2.symm.append_left _

/-- C2: meet on verdicts is commutative as observable values: the trust
fields agree and the (sorted) reason lists agree. -/
theorem verdict_meet_commutative (l r : TrustVerdict) :
    (l.meet r).trust = (r.meet l).trust ∧
      (l.meet r).reasons = (r.meet l).reasons :=
  ⟨congrArg TrustVerdict.trust (meet_comm_aux l r),
    congrArg TrustVerdict.reasons (meet_comm_aux l r)⟩

/-- C9: meet on verdicts is associative as observable values and idempotent
in the trust field. -/
theorem verdict_meet_assoc_idem (a b c v : TrustVerdict) :
    (a.meet b).meet c = a.meet (b.meet c) ∧ (v.meet v).trust = v.trust :=
  ⟨meet_assoc_aux a b c, by rw [meet_trust]; exact trust_meet_self _⟩

/-- C3 counterexample: with `l = ⟨Trusted, ["x"]⟩` and `r = ⟨Untrusted, ["x"]⟩`
every reason of `l` appears in the result (it is also a reason of `r`),
yet `l.trust` differs from the combined trust, so the claimed equivalence
fails. -/
theorem verdict_meet_lower_bound_iff_fails :
    ¬ ((∀ reason ∈ (⟨Trust.Trusted, ["x"]⟩ : TrustVerdict).reasons,
          reason ∈
            (TrustVerdict.meet ⟨Trust.Trusted, ["x"]⟩
              ⟨Trust.Untrusted, ["x"]⟩).reasons) ↔
        (⟨Trust.Trusted, ["x"]⟩ : TrustVerdict).trust =
          (TrustVerdict.meet ⟨Trust.Trusted, ["x"]⟩
            ⟨Trust.Untrusted, ["x"]⟩).trust) := by
  decide

/-- C3 (amended): the trust of the meet is the meet of the trusts, and if an
operand's trust equals the combined trust then every one of its reasons
appears in the result (symmetrically for both operands); the converse
implication of the original claim is dropped. -/
theorem verdict_meet_lower_bound (l r : TrustVerdict) :
    (l.meet r).trust = l.trust.meet r.trust ∧
      (l.trust = (l.meet r).trust →
        ∀ reason ∈ l.reasons, reason ∈ (l.meet r).reasons) ∧
      (r.trust = (l.meet r).trust →
        ∀ reason ∈ r.reasons, reason ∈ (l.meet r).reasons) := by
  refine ⟨meet_trust l r, ?_, ?_⟩
  · intro h reason hreason
    rw [meet_reasons, (sortReasons_perm _).mem_iff]
    apply List.mem_append_left
    unfold retained
    rw [if_pos (h.trans (meet_trust l r))]
    exact hreason
  · intro h reason hreason
    rw [meet_reasons, (sortReasons_perm _).mem_iff]
    apply List.mem_append_right
    unfold retained
    rw [if_pos (h.trans (meet_trust l r))]
    exact hreason

/-- C3 witness: the amended theorem applied to two concrete Trusted verdicts,
discharging both membership hypotheses. -/
theorem verdict_meet_lower_bound_witness :
    "a" ∈ (TrustVerdict.meet ⟨Trust.Trusted, ["a"]⟩
        ⟨Trust.Trusted, ["b"]⟩).reasons ∧
      "b" ∈ (TrustVerdict.meet ⟨Trust.Trusted, ["a"]⟩
        ⟨Trust.Trusted, ["b"]⟩).reasons :=
  ⟨(verdict_meet_lower_bound ⟨Trust.Trusted, ["a"]⟩
      ⟨Trust.Trusted, ["b"]⟩).2.1 (by decide) "a" (by decide),
    (verdict_meet_lower_bound ⟨Trust.Trusted, ["a"]⟩
      ⟨Trust.Trusted, ["b"]⟩).2.2 (by decide) "b" (by decide)⟩

/-! The combinator -/

theorem trust_le_indeterminate (t : Trust) : t ≤ Trust.Indeterminate := by
  cases t <;> decide

theorem retained_default (t : Trust) : retained t TrustVerdict.default = [] := by
  simp [retained, TrustVerdict.default]

theorem default_meet_left (l r : TrustVerdict) :
    (TrustVerdict.default.meet l).meet r = l.meet r := by
  have hd : (TrustVerdict.default.meet l).trust = l.trust := by
    rw [meet_trust]
    exact min_eq_right (trust_le_indeterminate l.trust)
  refine verdict_ext ?_ ?_
  · rw [meet_trust (TrustVerdict.default.meet l) r, hd, meet_trust]
  · rw [meet_reasons, meet_reasons, hd]
    apply sortReasons_congr
    apply List.Perm.append_right
    refine (retained_meet TrustVerdict.default l ?_).trans ?_
    · exact le_min (trust_le_indeterminate _) (trust_meet_le_left _ _)
    · rw [retained_default, List.nil_append]

/-- C7: `check_trust` produces exactly the meet of the commit-signature
verdict and the maintainer verdict; the fold through the default verdict
adds nothing. -/
theorem check_trust_is_meet (trustdb : TrustDatabase)
    (package : PackageWithEvidence) :
    check_trust trustdb package =
      (check_commit_signature package.head_commit).meet
        (check_maintainers trustdb package.maintainers) := by
  unfold check_trust combined_verdict
  simp only [List.foldl_cons, List.foldl_nil]
  exact default_meet_left _ _

theorem combined_trust_foldl (acc : TrustVerdict) (vs : List TrustVerdict) :
    (vs.foldl (fun l r => l.meet r) acc).trust =
      vs.foldl (fun t v => t.meet v.trust) acc.trust := by
  induction vs generalizing acc with
  | nil => rfl
  | cons v vs ih =>
      rw [List.foldl_cons, List.foldl_cons, ih (acc.meet v), meet_trust]

/-- C10: the combined verdict of no verdicts is exactly the default verdict,
and on a non-empty collection the resulting trust is the meet (minimum) of
the inputs' trust values alone — the Indeterminate start of the fold never
affects it. -/
theorem combined_verdict_empty_and_min :
    combined_verdict [] = TrustVerdict.default ∧
      ∀ (v : TrustVerdict) (vs : List TrustVerdict),
        (combined_verdict (v :: vs)).trust =
          vs.foldl (fun t w => t.meet w.trust) v.trust := by
  refine ⟨rfl, fun v vs => ?_⟩
  unfold combined_verdict
  rw [List.foldl_cons, combined_trust_foldl, meet_trust]
  congr 1
  exact min_eq_right (trust_le_indeterminate _)

/-! The evidence evaluators -/

theorem string_append_assoc (a b c : String) : a ++ b ++ c = a ++ (b ++ c) := by
  cases a with | mk da => cases b with | mk db => cases c with | mk dc =>
  show String.mk (da ++ db ++ dc) = String.mk (da ++ (db ++ dc))
  rw [List.append_assoc]

/-- C5: the signature evaluator: an unsigned commit yields the Indeterminate
default with the no-signature reason; a Good signature yields a Trusted
verdict naming hash, signer and key; each of the other five validities
yields an Untrusted verdict with its variant-specific reason; and every
signed variant's reason string contains the commit hash. -/
theorem check_commit_signature_cases (sha signer key : String) :
    ((check_commit_signature ⟨sha, none⟩).trust = Trust.Indeterminate ∧
      (check_commit_signature ⟨sha, none⟩).reasons =
        ["HEAD commit " ++ sha ++ " has no signature"]) ∧
    ((check_commit_signature
          ⟨sha, some ⟨SignatureValidity.Good, signer, key⟩⟩).trust =
        Trust.Trusted ∧
      (check_commit_signature
          ⟨sha, some ⟨SignatureValidity.Good, signer, key⟩⟩).reasons =
        ["HEAD commit " ++ sha ++ " signed by " ++ signer ++ " with key " ++
          key]) ∧
    ((check_commit_signature
          ⟨sha, some ⟨SignatureValidity.Bad, signer, key⟩⟩).trust =
        Trust.Untrusted ∧
      (check_commit_signature
          ⟨sha, some ⟨SignatureValidity.Bad, signer, key⟩⟩).reasons =
        ["HEAD commit " ++ sha ++ " had bad signature"]) ∧
    ((check_commit_signature
          ⟨sha, some ⟨SignatureValidity.UnknownValidity, signer, key⟩⟩).trust =
        Trust.Untrusted ∧
      (check_commit_signature
          ⟨sha, some ⟨SignatureValidity.UnknownValidity, signer, key⟩⟩).reasons =
        ["Validity of signature of " ++ signer ++ " with key " ++ key ++
          " on HEAD commit " ++ sha ++ " is not known"]) ∧
    ((check_commit_signature
          ⟨sha, some ⟨SignatureValidity.ExpiredSignature, signer, key⟩⟩).trust =
        Trust.Untrusted ∧
      (check_commit_signature
          ⟨sha, some ⟨SignatureValidity.ExpiredSignature, signer, key⟩⟩).reasons =
        ["Signature of " ++ signer ++ " with key " ++ key ++
          " on HEAD commit " ++ sha ++ " is expired"]) ∧
    ((check_commit_signature
          ⟨sha, some ⟨SignatureValidity.ExpiredKey, signer, key⟩⟩).trust =
        Trust.Untrusted ∧
      (check_commit_signature
          ⟨sha, some ⟨SignatureValidity.ExpiredKey, signer, key⟩⟩).reasons =
        ["Signature of " ++ signer ++ " on HEAD commit " ++ sha ++
          " was made with expired key " ++ key]) ∧
    ((check_commit_signature
          ⟨sha, some ⟨SignatureValidity.RevokedKey, signer, key⟩⟩).trust =
        Trust.Untrusted ∧
      (check_commit_signature
          ⟨sha, some ⟨SignatureValidity.RevokedKey, signer, key⟩⟩).reasons =
        ["Signature of " ++ signer ++ " on HEAD commit " ++ sha ++
          " was made with revoked key " ++ key]) ∧
    (∀ validity : SignatureValidity, ∃ pre post : String,
      (check_commit_signature ⟨sha, some ⟨validity, signer, key⟩⟩).reasons =
        [pre ++ sha ++ post]) := by
  refine ⟨⟨rfl, rfl⟩, ⟨rfl, rfl⟩, ⟨rfl, rfl⟩, ⟨rfl, rfl⟩, ⟨rfl, rfl⟩,
    ⟨rfl, rfl⟩, ⟨rfl, rfl⟩, fun validity => ?_⟩
  cases validity with
  | Good =>
      exact ⟨"HEAD commit ",
        " signed by " ++ signer ++ " with key " ++ key,
        by simp [check_commit_signature, TrustVerdict.add_reason,
          TrustVerdict.trusted, TrustVerdict.set_trust, TrustVerdict.default,
          string_append_assoc]⟩
  | Bad => exact ⟨"HEAD commit ", " had bad signature", rfl⟩
  | UnknownValidity =>
      exact ⟨"Validity of signature of " ++ signer ++ " with key " ++ key ++
        " on HEAD commit ", " is not known", rfl⟩
  | ExpiredSignature =>
      exact ⟨"Signature of " ++ signer ++ " with key " ++ key ++
        " on HEAD commit ", " is expired", rfl⟩
  | ExpiredKey =>
      exact ⟨"Signature of " ++ signer ++ " on HEAD commit ",
        " was made with expired key " ++ key,
        by simp [check_commit_signature, TrustVerdict.add_reason,
          TrustVerdict.untrusted, TrustVerdict.set_trust, TrustVerdict.default,
          string_append_assoc]⟩
  | RevokedKey =>
      exact ⟨"Signature of " ++ signer ++ " on HEAD commit ",
        " was made with revoked key " ++ key,
        by simp [check_commit_signature, TrustVerdict.add_reason,
          TrustVerdict.untrusted, TrustVerdict.set_trust, TrustVerdict.default,
          string_append_assoc]⟩

theorem string_data_append (a b : String) : (a ++ b).data = a.data ++ b.data := by
  cases a; cases b; rfl

theorem maintainer_reason_injective :
    Function.Injective
      (fun m : String => "Maintainer " ++ m ++ " is not trusted") := by
  intro a b h
  have hd := congrArg String.data h
  simp only [string_data_append] at hd
  have h1 := List.append_cancel_right hd
  have h2 := List.append_cancel_left h1
  exact congrArg String.mk h2

theorem foldl_add_reason (f : String → String) (acc : TrustVerdict)
    (ms : List String) :
    ms.foldl (fun verdict m => verdict.add_reason (f m)) acc =
      { trust := acc.trust, reasons := acc.reasons ++ ms.map f } := by
  induction ms generalizing acc with
  | nil => cases acc; simp
  | cons m ms ih =>
      rw [List.foldl_cons, ih]
      simp [TrustVerdict.add_reason]

theorem check_maintainers_empty (trustdb : TrustDatabase) :
    check_maintainers trustdb [] =
      { trust := Trust.Indeterminate, reasons := ["Maintainers unknown"] } :=
  rfl

theorem check_maintainers_subset (trustdb : TrustDatabase)
    (maintainers : List String) (hne : maintainers ≠ [])
    (hsub : ∀ m ∈ maintainers, m ∈ trustdb.trusted_maintainers) :
    check_maintainers trustdb maintainers =
      { trust := Trust.Trusted, reasons := ["All maintainers trusted"] } := by
  unfold check_maintainers
  rw [if_neg (fun h => hne (List.isEmpty_iff.mp h)),
    if_pos (List.all_eq_true.mpr
      fun x hx => List.elem_eq_true_of_mem (hsub x hx))]
  rfl

theorem check_maintainers_not_subset (trustdb : TrustDatabase)
    (maintainers : List String) (hne : maintainers ≠ [])
    (hm : ∃ m ∈ maintainers, m ∉ trustdb.trusted_maintainers) :
    check_maintainers trustdb maintainers =
      { trust := Trust.Indeterminate,
        reasons :=
          (maintainers.filter
              (fun m => !trustdb.trusted_maintainers.contains m)).map
            (fun m => "Maintainer " ++ m ++ " is not trusted") } := by
  have hall :
      ¬(maintainers.all
          (fun m => trustdb.trusted_maintainers.contains m) = true) := by
    intro htrue
    obtain ⟨m, hmem, hnot⟩ := hm
    exact hnot (List.elem_iff.mp (List.all_eq_true.mp htrue m hmem))
  unfold check_maintainers
  rw [if_neg (fun h => hne (List.isEmpty_iff.mp h)), if_neg hall,
    foldl_add_reason (fun m => "Maintainer " ++ m ++ " is not trusted")]
  rfl

/-- C6: the maintainer evaluator: the empty maintainer set yields the
Indeterminate default with the single reason "Maintainers unknown"; a
non-empty set fully contained in the trust database yields a Trusted
verdict with the single reason "All maintainers trusted"; and a non-empty
set not fully contained yields an Indeterminate (not Untrusted) verdict
whose reasons are exactly one "Maintainer m is not trusted" per maintainer
`m` not found in the database. -/
theorem check_maintainers_boundary (trustdb : TrustDatabase)
    (maintainers : List String) :
    (maintainers = [] →
      check_maintainers trustdb maintainers =
        { trust := Trust.Indeterminate, reasons := ["Maintainers unknown"] }) ∧
    (maintainers ≠ [] →
      (∀ m ∈ maintainers, m ∈ trustdb.trusted_maintainers) →
        check_maintainers trustdb maintainers =
          { trust := Trust.Trusted,
            reasons := ["All maintainers trusted"] }) ∧
    (maintainers ≠ [] →
      (∃ m ∈ maintainers, m ∉ trustdb.trusted_maintainers) →
        maintainers.Nodup →
          (check_maintainers trustdb maintainers).trust = Trust.Indeterminate ∧
            (check_maintainers trustdb maintainers).reasons.Nodup ∧
            ∀ reason : String,
              (reason ∈ (check_maintainers trustdb maintainers).reasons ↔
                ∃ m ∈ maintainers, m ∉ trustdb.trusted_maintainers ∧
                  reason = "Maintainer " ++ m ++ " is not trusted")) := by
  refine ⟨fun he => by rw [he]; exact check_maintainers_empty trustdb,
    check_maintainers_subset trustdb maintainers, ?_⟩
  intro hne hm hnodup
  rw [check_maintainers_not_subset trustdb maintainers hne hm]
  refine ⟨rfl, List.Nodup.map maintainer_reason_injective
    (hnodup.filter _), ?_⟩
  intro reason
  constructor
  · intro hr
    obtain ⟨m, hmf, hmsg⟩ := List.mem_map.mp hr
    obtain ⟨hmem, hp⟩ := List.mem_filter.mp hmf
    refine ⟨m, hmem, ?_, hmsg.symm⟩
    intro hdb
    have hc : trustdb.trusted_maintainers.contains m = true :=
      List.elem_eq_true_of_mem hdb
    rw [hc] at hp
    exact absurd hp (by decide)
  · intro hr
    obtain ⟨m, hmem, hnot, hmsg⟩ := hr
    refine List.mem_map.mpr ⟨m, List.mem_filter.mpr ⟨hmem, ?_⟩, hmsg.symm⟩
    have hfalse : trustdb.trusted_maintainers.contains m = false := by
      cases hc : trustdb.trusted_maintainers.contains m with
      | false => rfl
      | true => exact absurd (List.elem_iff.mp hc) hnot
    rw [hfalse]
    rfl

/-- C6 witness: the boundary theorem applied at the trust database `{foo}`
with maintainer sets `{}`, `{foo}` and `{foo, bar}`, discharging every
hypothesis. -/
theorem check_maintainers_boundary_witness :
    check_maintainers ⟨["foo"]⟩ [] =
        { trust := Trust.Indeterminate, reasons := ["Maintainers unknown"] } ∧
      check_maintainers ⟨["foo"]⟩ ["foo"] =
        { trust := Trust.Trusted, reasons := ["All maintainers trusted"] } ∧
      (check_maintainers ⟨["foo"]⟩ ["foo", "bar"]).trust =
        Trust.Indeterminate ∧
      ("Maintainer " ++ "bar" ++ " is not trusted" ∈
        (check_maintainers ⟨["foo"]⟩ ["foo", "bar"]).reasons) :=
  ⟨(check_maintainers_boundary ⟨["foo"]⟩ []).1 rfl,
    (check_maintainers_boundary ⟨["foo"]⟩ ["foo"]).2.1 (by decide)
      (by decide),
    ((check_maintainers_boundary ⟨["foo"]⟩ ["foo", "bar"]).2.2 (by decide)
      ⟨"bar", by decide, by decide⟩ (by decide)).1,
    (((check_maintainers_boundary ⟨["foo"]⟩ ["foo", "bar"]).2.2 (by decide)
      ⟨"bar", by decide, by decide⟩ (by decide)).2.2
      ("Maintainer " ++ "bar" ++ " is not trusted")).mpr
      ⟨"bar", by decide, by decide, rfl⟩⟩

/-- C8: a package whose head commit carries a RevokedKey signature and whose
non-empty maintainer set is fully contained in the trust database receives
an Untrusted combined verdict whose reasons contain only the revoked-key
explanation; the maintainer-trust reason is dropped. -/
theorem revoked_key_dominates (pname sha signer key : String)
    (trustdb : TrustDatabase) (maintainers : List String)
    (hne : maintainers ≠ [])
    (hsub : ∀ m ∈ maintainers, m ∈ trustdb.trusted_maintainers) :
    check_trust trustdb
        { name := pname, maintainers := maintainers,
          head_commit :=
            ⟨sha, some ⟨SignatureValidity.RevokedKey, signer, key⟩⟩ } =
      { trust := Trust.Untrusted,
        reasons := ["Signature of " ++ signer ++ " on HEAD commit " ++ sha ++
            " was made with revoked key " ++ key] } := by
  unfold check_trust combined_verdict
  simp only [List.foldl_cons, List.foldl_nil]
  rw [default_meet_left, check_maintainers_subset trustdb maintainers hne hsub]
  rfl

/-- C8 witness: the dominance theorem at a fully concrete package, with both
hypotheses discharged. -/
theorem revoked_key_dominates_witness :
    check_trust ⟨["alice"]⟩
        { name := "pkg", maintainers := ["alice"],
          head_commit :=
            ⟨"d62e888", some ⟨SignatureValidity.RevokedKey, "Jane", "K"⟩⟩ } =
      { trust := Trust.Untrusted,
        reasons := ["Signature of " ++ "Jane" ++ " on HEAD commit " ++
            "d62e888" ++ " was made with revoked key " ++ "K"] } :=
  revoked_key_dominates "pkg" "d62e888" "Jane" "K" ⟨["alice"]⟩ ["alice"]
    (by decide) (by decide)
